import Mathlib

/-!
Verification of the Fidibo Art scraper core (src/fidibo.py) against its
natural-language specification.  Python numbers are embedded as `ℤ` (ints)
and `ℚ` (floats: every arithmetic step the program performs on ratings and
prices is exact at these magnitudes, so rationals model them faithfully);
Python dicts are embedded as association lists in insertion order with
last-write-wins updates; raised exceptions become `Except`/sum results;
the paginated network is an oracle `ℕ → PageResp` together with fuel for
the unbounded `while True` loop.
-/

namespace Fidibo

/-! ## Rating engine (`bayesian_rating`, `show_bayes_score`) -/

/-- The body of `bayesian_rating` after its `None` check:
`v = max(int(votes), 0)`, `m = max(int(prior_weight), 1)`,
`(v*R + m*C) / (v + m)` in float arithmetic, embedded over `ℚ`. -/
def bayesianCore (R : ℚ) (votes : ℤ) (prior_mean : ℚ) (prior_weight : ℤ) : ℚ :=
  let v : ℤ := max votes 0
  let m : ℤ := max prior_weight 1
  ((v : ℚ) * R + (m : ℚ) * prior_mean) / ((v : ℚ) + (m : ℚ))

/-- `bayesian_rating(raw_avg, votes, prior_mean=3.5, prior_weight=20)`:
returns `None` when `raw_avg is None`, else the shrunk score. -/
def bayesian_rating (raw_avg : Option ℚ) (votes : ℤ)
    (prior_mean : ℚ := 7/2) (prior_weight : ℤ := 20) : Option ℚ :=
  match raw_avg with
  | none => none
  | some R => some (bayesianCore R votes prior_mean prior_weight)

/-- Modelled from the spec's words in §4.5 (for the refinement claim C2):
`votes = max(voteCount, 0)`, `weight = max(priorWeight, 1)`,
`result = (votes·rawAverage + weight·priorMean) / (votes + weight)`;
absent input gives an absent result. -/
def shrunkScoreSpec (rawAverage : Option ℚ) (voteCount : ℤ)
    (priorMean : ℚ) (priorWeight : ℤ) : Option ℚ :=
  match rawAverage with
  | none => none
  | some R =>
      some ((((max voteCount 0 : ℤ) : ℚ) * R + ((max priorWeight 1 : ℤ) : ℚ) * priorMean) /
        (((max voteCount 0 : ℤ) : ℚ) + ((max priorWeight 1 : ℤ) : ℚ)))

/-- C2: the shrunk-score function is absent exactly when the raw average is
absent, otherwise it is `(votes·rawAverage + weight·priorMean)/(votes+weight)`
with `votes = max(voteCount,0)` and `weight = max(priorWeight,1)` (this is
`shrunkScoreSpec`, the formula transcribed from the spec); and with the
default prior, `shrunkScore(5.0, 0) = 3.5` exactly. -/
theorem bayesian_rating_matches_spec (raw : Option ℚ) (votes : ℤ)
    (pm : ℚ) (pw : ℤ) :
    (bayesian_rating raw votes pm pw = none ↔ raw = none) ∧
    bayesian_rating raw votes pm pw = shrunkScoreSpec raw votes pm pw ∧
    bayesian_rating (some 5) 0 = some (7/2) := by
  refine ⟨?_, ?_, ?_⟩
  · cases raw <;> simp [bayesian_rating]
  · cases raw <;> simp [bayesian_rating, shrunkScoreSpec, bayesianCore]
  · show some (bayesianCore 5 0 (7/2) 20) = some (7/2)
    norm_num [bayesianCore]

/-- C10: the shrunk score always lies weakly between the raw average and the
prior mean; with the default prior (3.5) a raw average in `[0,5]` yields a
score in `[0,5]`. -/
theorem bayesianCore_between (R : ℚ) (votes : ℤ) (pm : ℚ) (pw : ℤ) (x : ℚ)
    (hx : bayesian_rating (some R) votes pm pw = some x) :
    min R pm ≤ x ∧ x ≤ max R pm ∧
      (0 ≤ R → R ≤ 5 → pm = 7/2 → 0 ≤ x ∧ x ≤ 5) := by
  have hxval : x = bayesianCore R votes pm pw := by
    simpa [bayesian_rating] using hx.symm
  subst hxval
  have hv : (0 : ℚ) ≤ ((max votes 0 : ℤ) : ℚ) := by
    exact_mod_cast le_max_right votes 0
  have hm : (1 : ℚ) ≤ ((max pw 1 : ℤ) : ℚ) := by
    exact_mod_cast le_max_right pw 1
  have hden : (0 : ℚ) < ((max votes 0 : ℤ) : ℚ) + ((max pw 1 : ℤ) : ℚ) := by linarith
  have hlow : min R pm ≤ bayesianCore R votes pm pw := by
    unfold bayesianCore
    rw [le_div_iff₀ hden]
    have h1 : min R pm ≤ R := min_le_left R pm
    have h2 : min R pm ≤ pm := min_le_right R pm
    nlinarith
  have hhigh : bayesianCore R votes pm pw ≤ max R pm := by
    unfold bayesianCore
    rw [div_le_iff₀ hden]
    have h1 : R ≤ max R pm := le_max_left R pm
    have h2 : pm ≤ max R pm := le_max_right R pm
    nlinarith
  refine ⟨hlow, hhigh, fun h0 h5 hpm => ⟨?_, ?_⟩⟩
  · subst hpm
    have : (0 : ℚ) ≤ min R (7/2) := le_min h0 (by norm_num)
    linarith
  · subst hpm
    have : max R (7/2) ≤ 5 := max_le h5 (by norm_num)
    linarith

/-- Concrete instance of `bayesianCore_between`: raw average 4 with 7 votes
under the default prior gives `(7·4 + 20·3.5)/27 = 98/27`, which lies between
`min 4 3.5 = 3.5` and `max 4 3.5 = 4` and inside `[0,5]`. -/
theorem bayesianCore_between_witness :
    min (4 : ℚ) (7/2) ≤ 98/27 ∧ (98/27 : ℚ) ≤ max 4 (7/2) ∧
      ((0 : ℚ) ≤ 4 → (4 : ℚ) ≤ 5 → (7/2 : ℚ) = 7/2 → (0 : ℚ) ≤ 98/27 ∧ (98/27 : ℚ) ≤ 5) :=
  bayesianCore_between 4 7 (7/2) 20 (98/27) (by norm_num [bayesian_rating, bayesianCore])

/-! ## Seat data model and availability summarizer (`summarize_session_seats`) -/

/-- The seat-state code the program treats as SOLD (`STATE_SOLD = 3`). -/
def STATE_SOLD : ℤ := 3

/-- The seat-state code the program treats as LOCKED (`STATE_LOCKED = 4`). -/
def STATE_LOCKED : ℤ := 4

/-- One value of the seatmap index built by `seatmap_index`: the per-seat
dict `{"seat_id", "display_name", "zone", "block", "row", "price",
"currency"}`.  A price that is absent or not numeric is `none`; a currency
that is absent or JSON `null` is `none`. -/
structure SeatEntry where
  seat_id : ℤ
  display_name : Option String := none
  zone : Option String := none
  block : Option String := none
  row : Option String := none
  price : Option ℚ := none
  currency : Option String := none
deriving DecidableEq, Repr

/-- The summary dict returned by `summarize_session_seats`. -/
structure SeatSummary where
  total_seats_in_map : ℕ
  available_seats : ℕ
  sold_seats_state_3 : ℕ
  locked_seats_state_4 : ℕ
  other_state_seats : ℕ
  currency : Option String
  available_min_price : Option ℚ
  available_max_price : Option ℚ
  available_unique_prices : List ℚ
deriving DecidableEq, Repr

/-- The loop state of `summarize_session_seats`: the counters `available`,
`sold`, `locked`, `other`, the list `prices` and the variable `currency`. -/
structure SummAcc where
  available : ℕ := 0
  sold : ℕ := 0
  locked : ℕ := 0
  other : ℕ := 0
  prices : List ℚ := []
  currency : Option String := none
deriving DecidableEq, Repr

/-- Python truthiness of the string-or-`None` field `info.get("currency")`:
`None` and the empty string are falsy, every other string is truthy. -/
def truthyStr : Option String → Option String
  | none => none
  | some s => if s = "" then none else some s

/-- One iteration of the `for sid, info in seat_idx.items()` loop of
`summarize_session_seats`: look the seat id up in `states`; when missing
count it available, collect a numeric price, and set `currency` if it is
still `None` and the seat's currency is truthy; state 3 counts sold,
state 4 locked, anything else other. -/
def summStep (states : List (ℤ × ℤ)) (acc : SummAcc) (kv : ℤ × SeatEntry) : SummAcc :=
  match List.lookup kv.1 states with
  | none =>
      { acc with
        available := acc.available + 1
        prices := match kv.2.price with
          | some p => acc.prices ++ [p]
          | none => acc.prices
        currency := match acc.currency, truthyStr kv.2.currency with
          | none, some c => some c
          | c0, _ => c0 }
  | some st =>
      if st = STATE_SOLD then { acc with sold := acc.sold + 1 }
      else if st = STATE_LOCKED then { acc with locked := acc.locked + 1 }
      else { acc with other := acc.other + 1 }

/-- `summarize_session_seats(seat_idx, states)`: run the loop over the
seatmap index (in its iteration order) and package the summary dict.
`min(prices)`/`max(prices)` are `None` on an empty list, and
`sorted(set(prices))` is the ascending list of the distinct prices. -/
def summarize_session_seats (seat_idx : List (ℤ × SeatEntry))
    (states : List (ℤ × ℤ)) : SeatSummary :=
  let acc := seat_idx.foldl (summStep states) {}
  { total_seats_in_map := seat_idx.length
    available_seats := acc.available
    sold_seats_state_3 := acc.sold
    locked_seats_state_4 := acc.locked
    other_state_seats := acc.other
    currency := acc.currency
    available_min_price := acc.prices.min?
    available_max_price := acc.prices.max?
    available_unique_prices := List.insertionSort (· ≤ ·) acc.prices.dedup }

/-- The four seat dispositions of the spec's classification rule. -/
inductive SeatDisposition where
  | AVAILABLE : SeatDisposition
  | SOLD : SeatDisposition
  | LOCKED : SeatDisposition
  | OTHER : SeatDisposition
deriving DecidableEq, Repr

/-- The spec's classification rule for one seat id: absent from the state
mapping means AVAILABLE, state 3 SOLD, state 4 LOCKED, anything else OTHER. -/
def classify (states : List (ℤ × ℤ)) (sid : ℤ) : SeatDisposition :=
  match List.lookup sid states with
  | none => .AVAILABLE
  | some st =>
      if st = STATE_SOLD then .SOLD
      else if st = STATE_LOCKED then .LOCKED
      else .OTHER

/-- The seatmap entries classified AVAILABLE, in seatmap iteration order. -/
def availableEntries (seat_idx : List (ℤ × SeatEntry))
    (states : List (ℤ × ℤ)) : List (ℤ × SeatEntry) :=
  seat_idx.filter (fun kv => (List.lookup kv.1 states).isNone)

/-- The numeric prices of the available seats, in seatmap iteration order. -/
def availablePrices (seat_idx : List (ℤ × SeatEntry))
    (states : List (ℤ × ℤ)) : List ℚ :=
  (availableEntries seat_idx states).filterMap (fun kv => kv.2.price)

theorem summStep_available (states : List (ℤ × ℤ)) (acc : SummAcc) (kv : ℤ × SeatEntry) :
    (summStep states acc kv).available
      = acc.available + (if classify states kv.1 = .AVAILABLE then 1 else 0) := by
  rcases h : List.lookup kv.1 states with _ | st
  · simp [summStep, classify, h]
  · by_cases h3 : st = 3 <;> by_cases h4 : st = 4 <;>
      simp [summStep, classify, h, h3, h4, STATE_SOLD, STATE_LOCKED]

theorem summStep_sold (states : List (ℤ × ℤ)) (acc : SummAcc) (kv : ℤ × SeatEntry) :
    (summStep states acc kv).sold
      = acc.sold + (if classify states kv.1 = .SOLD then 1 else 0) := by
  rcases h : List.lookup kv.1 states with _ | st
  · simp [summStep, classify, h]
  · by_cases h3 : st = 3 <;> by_cases h4 : st = 4 <;>
      simp [summStep, classify, h, h3, h4, STATE_SOLD, STATE_LOCKED]

theorem summStep_locked (states : List (ℤ × ℤ)) (acc : SummAcc) (kv : ℤ × SeatEntry) :
    (summStep states acc kv).locked
      = acc.locked + (if classify states kv.1 = .LOCKED then 1 else 0) := by
  rcases h : List.lookup kv.1 states with _ | st
  · simp [summStep, classify, h]
  · by_cases h3 : st = 3 <;> by_cases h4 : st = 4 <;>
      simp [summStep, classify, h, h3, h4, STATE_SOLD, STATE_LOCKED]

theorem summStep_other (states : List (ℤ × ℤ)) (acc : SummAcc) (kv : ℤ × SeatEntry) :
    (summStep states acc kv).other
      = acc.other + (if classify states kv.1 = .OTHER then 1 else 0) := by
  rcases h : List.lookup kv.1 states with _ | st
  · simp [summStep, classify, h]
  · by_cases h3 : st = 3 <;> by_cases h4 : st = 4 <;>
      simp [summStep, classify, h, h3, h4, STATE_SOLD, STATE_LOCKED]

theorem summStep_prices (states : List (ℤ × ℤ)) (acc : SummAcc) (kv : ℤ × SeatEntry) :
    (summStep states acc kv).prices
      = acc.prices ++ (if (List.lookup kv.1 states).isNone then kv.2.price.toList else []) := by
  rcases h : List.lookup kv.1 states with _ | st
  · rcases hp : kv.2.price with _ | p <;> simp [summStep, h, hp]
  · by_cases h3 : st = 3 <;> by_cases h4 : st = 4 <;>
      simp [summStep, h, h3, h4, STATE_SOLD, STATE_LOCKED]

theorem summStep_currency (states : List (ℤ × ℤ)) (acc : SummAcc) (kv : ℤ × SeatEntry) :
    (summStep states acc kv).currency
      = acc.currency.or
          (if (List.lookup kv.1 states).isNone then truthyStr kv.2.currency else none) := by
  rcases h : List.lookup kv.1 states with _ | st
  · rcases hc : acc.currency with _ | c
    · rcases ht : truthyStr kv.2.currency with _ | t <;> simp [summStep, h, hc, ht]
    · rcases ht : truthyStr kv.2.currency with _ | t <;> simp [summStep, h, hc, ht]
  · by_cases h3 : st = 3 <;> by_cases h4 : st = 4 <;>
      simp [summStep, h, h3, h4, STATE_SOLD, STATE_LOCKED]

theorem summFold_counts (states : List (ℤ × ℤ)) (l : List (ℤ × SeatEntry)) :
    ∀ acc : SummAcc,
      (l.foldl (summStep states) acc).available
          = acc.available + l.countP (fun kv => decide (classify states kv.1 = .AVAILABLE)) ∧
      (l.foldl (summStep states) acc).sold
          = acc.sold + l.countP (fun kv => decide (classify states kv.1 = .SOLD)) ∧
      (l.foldl (summStep states) acc).locked
          = acc.locked + l.countP (fun kv => decide (classify states kv.1 = .LOCKED)) ∧
      (l.foldl (summStep states) acc).other
          = acc.other + l.countP (fun kv => decide (classify states kv.1 = .OTHER)) := by
  induction l with
  | nil => intro acc; simp
  | cons kv t ih =>
      intro acc
      obtain ⟨h1, h2, h3, h4⟩ := ih (summStep states acc kv)
      refine ⟨?_, ?_, ?_, ?_⟩ <;>
        simp only [List.foldl_cons, List.countP_cons, h1, h2, h3, h4,
          summStep_available, summStep_sold, summStep_locked, summStep_other,
          decide_eq_true_eq] <;>
        split <;> omega

theorem summFold_prices (states : List (ℤ × ℤ)) (l : List (ℤ × SeatEntry)) :
    ∀ acc : SummAcc,
      (l.foldl (summStep states) acc).prices = acc.prices ++ availablePrices l states := by
  induction l with
  | nil => intro acc; simp [availablePrices, availableEntries]
  | cons kv t ih =>
      intro acc
      rw [List.foldl_cons, ih, summStep_prices]
      rcases h : List.lookup kv.1 states with _ | st <;>
        rcases hp : kv.2.price with _ | p <;>
        simp [availablePrices, availableEntries, List.filter_cons, h, hp, List.filterMap_cons]

theorem summFold_currency (states : List (ℤ × ℤ)) (l : List (ℤ × SeatEntry)) :
    ∀ acc : SummAcc,
      (l.foldl (summStep states) acc).currency
        = acc.currency.or
            (((availableEntries l states).filterMap (fun kv => truthyStr kv.2.currency)).head?) := by
  induction l with
  | nil => intro acc; simp [availableEntries]
  | cons kv t ih =>
      intro acc
      rw [List.foldl_cons, ih, summStep_currency, Option.or_assoc]
      rcases h : List.lookup kv.1 states with _ | st
      · rcases ht : truthyStr kv.2.currency with _ | c <;>
          simp [availableEntries, List.filter_cons, h, ht, List.filterMap_cons]
      · simp [availableEntries, List.filter_cons, h]

theorem countP_classify_partition (states : List (ℤ × ℤ)) (l : List (ℤ × SeatEntry)) :
    l.countP (fun kv => decide (classify states kv.1 = .AVAILABLE))
      + l.countP (fun kv => decide (classify states kv.1 = .SOLD))
      + l.countP (fun kv => decide (classify states kv.1 = .LOCKED))
      + l.countP (fun kv => decide (classify states kv.1 = .OTHER))
      = l.length := by
  induction l with
  | nil => simp
  | cons kv t ih =>
      simp only [List.countP_cons, List.length_cons, decide_eq_true_eq]
      rcases hc : classify states kv.1 <;> simp [hc] <;> omega

theorem summStep_congr (states states2 : List (ℤ × ℤ)) (acc : SummAcc)
    (kv : ℤ × SeatEntry) (h : List.lookup kv.1 states2 = List.lookup kv.1 states) :
    summStep states2 acc kv = summStep states acc kv := by
  simp [summStep, h]

theorem summFold_congr (states states2 : List (ℤ × ℤ)) (l : List (ℤ × SeatEntry)) :
    ∀ acc : SummAcc,
      (∀ kv ∈ l, List.lookup kv.1 states2 = List.lookup kv.1 states) →
      l.foldl (summStep states2) acc = l.foldl (summStep states) acc := by
  induction l with
  | nil => intro acc _; rfl
  | cons kv t ih =>
      intro acc hagree
      rw [List.foldl_cons, List.foldl_cons,
        summStep_congr states states2 acc kv (hagree kv (by simp))]
      exact ih _ (fun kv2 hkv2 => hagree kv2 (by simp [hkv2]))

/-- C1: the availability summarizer classifies each seat id of the seatmap
index by exactly one rule (absent from the state mapping AVAILABLE, state 3
SOLD, state 4 LOCKED, any other state OTHER): its four counters count
exactly the seats each rule classifies; the state mapping is consulted only
by lookup, so any state mapping agreeing on the seatmap's seat ids gives the
identical summary (entries for other seat ids never change the result); and
available + sold + locked + other = total_seats_in_map. -/
theorem summarize_session_seats_classification (seat_idx : List (ℤ × SeatEntry))
    (states : List (ℤ × ℤ)) :
    ((summarize_session_seats seat_idx states).available_seats
        = seat_idx.countP (fun kv => decide (classify states kv.1 = .AVAILABLE)) ∧
     (summarize_session_seats seat_idx states).sold_seats_state_3
        = seat_idx.countP (fun kv => decide (classify states kv.1 = .SOLD)) ∧
     (summarize_session_seats seat_idx states).locked_seats_state_4
        = seat_idx.countP (fun kv => decide (classify states kv.1 = .LOCKED)) ∧
     (summarize_session_seats seat_idx states).other_state_seats
        = seat_idx.countP (fun kv => decide (classify states kv.1 = .OTHER))) ∧
    (∀ states2 : List (ℤ × ℤ),
        (∀ sid ∈ seat_idx.map Prod.fst, List.lookup sid states2 = List.lookup sid states) →
        summarize_session_seats seat_idx states2 = summarize_session_seats seat_idx states) ∧
    ((summarize_session_seats seat_idx states).available_seats
        + (summarize_session_seats seat_idx states).sold_seats_state_3
        + (summarize_session_seats seat_idx states).locked_seats_state_4
        + (summarize_session_seats seat_idx states).other_state_seats
      = (summarize_session_seats seat_idx states).total_seats_in_map) := by
  obtain ⟨h1, h2, h3, h4⟩ := summFold_counts states seat_idx ({} : SummAcc)
  refine ⟨⟨?_, ?_, ?_, ?_⟩, ?_, ?_⟩
  · simpa [summarize_session_seats] using h1
  · simpa [summarize_session_seats] using h2
  · simpa [summarize_session_seats] using h3
  · simpa [summarize_session_seats] using h4
  · intro states2 hag
    have hfold : seat_idx.foldl (summStep states2) {} = seat_idx.foldl (summStep states) {} :=
      summFold_congr states states2 seat_idx {}
        (fun kv hkv => hag kv.1 (List.mem_map_of_mem Prod.fst hkv))
    simp [summarize_session_seats, hfold]
  · have := countP_classify_partition states seat_idx
    simp only [summarize_session_seats]
    simp only [h1, h2, h3, h4]
    omega

/-- A concrete seatmap index: four seats, none carrying a price. -/
def c1Idx : List (ℤ × SeatEntry) :=
  [(1, { seat_id := 1 }), (2, { seat_id := 2 }), (3, { seat_id := 3 }), (4, { seat_id := 4 })]

/-- A concrete state mapping for `c1Idx`: seat 2 sold, seat 3 locked,
seat 4 in an unexplained state, seat 1 absent. -/
def c1States : List (ℤ × ℤ) := [(2, 3), (3, 4), (4, 9)]

/-- `c1States` plus an entry for seat id 77, which `c1Idx` does not contain. -/
def c1States2 : List (ℤ × ℤ) := [(2, 3), (3, 4), (4, 9), (77, 3)]

/-- Concrete instance of `summarize_session_seats_classification`: a state
entry for a seat id outside the seatmap does not change the summary, and the
four counters add up to the seat total. -/
theorem summarize_session_seats_classification_witness :
    summarize_session_seats c1Idx c1States2 = summarize_session_seats c1Idx c1States ∧
    (summarize_session_seats c1Idx c1States).available_seats
        + (summarize_session_seats c1Idx c1States).sold_seats_state_3
        + (summarize_session_seats c1Idx c1States).locked_seats_state_4
        + (summarize_session_seats c1Idx c1States).other_state_seats
      = (summarize_session_seats c1Idx c1States).total_seats_in_map :=
  ⟨(summarize_session_seats_classification c1Idx c1States).2.1 c1States2 (by decide),
   (summarize_session_seats_classification c1Idx c1States).2.2⟩

/-- C8 (amended): the summary's price statistics are computed over AVAILABLE
seats only — the minimum and maximum are `min`/`max` of the numeric prices of
the available seats (`none` when there are none), the unique-price list is
strictly sorted and holds exactly the distinct available prices (empty when
there are none) — and the currency is the first *truthy* (non-null and
non-empty) currency code among available seats in seatmap iteration order. -/
theorem summarize_session_seats_price_stats (seat_idx : List (ℤ × SeatEntry))
    (states : List (ℤ × ℤ)) :
    (summarize_session_seats seat_idx states).available_min_price
        = (availablePrices seat_idx states).min? ∧
    (summarize_session_seats seat_idx states).available_max_price
        = (availablePrices seat_idx states).max? ∧
    List.Sorted (· < ·) (summarize_session_seats seat_idx states).available_unique_prices ∧
    (∀ x : ℚ, x ∈ (summarize_session_seats seat_idx states).available_unique_prices
        ↔ x ∈ availablePrices seat_idx states) ∧
    (availablePrices seat_idx states = [] →
        (summarize_session_seats seat_idx states).available_min_price = none ∧
        (summarize_session_seats seat_idx states).available_max_price = none ∧
        (summarize_session_seats seat_idx states).available_unique_prices = []) ∧
    (summarize_session_seats seat_idx states).currency
        = ((availableEntries seat_idx states).filterMap
            (fun kv => truthyStr kv.2.currency)).head? := by
  have hp : (seat_idx.foldl (summStep states) ({} : SummAcc)).prices
      = availablePrices seat_idx states := by
    simpa using summFold_prices states seat_idx {}
  have hsorted : List.Sorted (· ≤ ·)
      (List.insertionSort (· ≤ ·) (availablePrices seat_idx states).dedup) :=
    List.sorted_insertionSort (· ≤ ·) _
  have hnodup : (List.insertionSort (· ≤ ·) (availablePrices seat_idx states).dedup).Nodup :=
    (List.perm_insertionSort (· ≤ ·) _).nodup_iff.mpr (List.nodup_dedup _)
  refine ⟨?_, ?_, ?_, ?_, ?_, ?_⟩
  · simp [summarize_session_seats, hp]
  · simp [summarize_session_seats, hp]
  · simp only [summarize_session_seats, hp]
    exact (hsorted.and hnodup).imp (fun h => lt_of_le_of_ne h.1 h.2)
  · intro x
    simp only [summarize_session_seats, hp]
    rw [(List.perm_insertionSort (· ≤ ·) _).mem_iff, List.mem_dedup]
  · intro hempty
    simp [summarize_session_seats, hp, hempty]
  · have hcur := summFold_currency states seat_idx ({} : SummAcc)
    simp only [summarize_session_seats]
    simpa using hcur

/-- A seatmap whose first available seat carries the empty-string currency
and whose second carries "IRR"; no seat states. -/
def currencyCEIdx : List (ℤ × SeatEntry) :=
  [(1, { seat_id := 1, currency := some "" }),
   (2, { seat_id := 2, currency := some "IRR" })]

/-- C8 counterexample: on `currencyCEIdx` with an empty state mapping the
summary's currency is `some "IRR"`, not the first non-null currency code
among available seats in seatmap iteration order (which is `some ""`): the
program tests Python truthiness, so an empty-string currency is skipped
rather than selected. -/
theorem summarize_currency_not_first_nonnull :
    (summarize_session_seats currencyCEIdx []).currency
      ≠ ((availableEntries currencyCEIdx []).filterMap (fun kv => kv.2.currency)).head? := by
  decide

/-- Concrete instance of `summarize_session_seats_price_stats`: on a seatmap
with no priced seats the price statistics are all empty. -/
theorem summarize_session_seats_price_stats_witness :
    (summarize_session_seats c1Idx c1States).available_min_price = none ∧
    (summarize_session_seats c1Idx c1States).available_max_price = none ∧
    (summarize_session_seats c1Idx c1States).available_unique_prices = [] :=
  (summarize_session_seats_price_stats c1Idx c1States).2.2.2.2.1 (by decide)

/-! ## Seatmap indexer (`seatmap_index`) -/

/-- A seat of the seatmap document.  `id = none` models a seat whose `"id"`
field is missing or not convertible to an integer, so that `int(seat["id"])`
raises. -/
structure RawSeat where
  id : Option ℤ
  display_name : Option String := none
  price : Option ℚ := none
  currency : Option String := none
deriving DecidableEq, Repr

/-- A row of the seatmap document (`row.get("seats") or []` is the list). -/
structure RawRow where
  name : Option String := none
  seats : List RawSeat := []
deriving DecidableEq, Repr

/-- A block of the seatmap document. -/
structure RawBlock where
  name : Option String := none
  rows : List RawRow := []
deriving DecidableEq, Repr

/-- A zone of the seatmap document. -/
structure RawZone where
  name : Option String := none
  blocks : List RawBlock := []
deriving DecidableEq, Repr

/-- One layout entry of the seatmap document's result list. -/
structure SeatLayout where
  zones : List RawZone := []
deriving DecidableEq, Repr

/-- The seatmap document as `seatmap_index` reads it:
`seatmap_json.get("data", {}).get("result") or []`. -/
structure SeatmapDoc where
  result : List SeatLayout := []
deriving DecidableEq, Repr

/-- Python dict assignment `d[k] = v` on an insertion-ordered dict: an
existing key keeps its position and takes the new value, a new key is
appended at the end. -/
def assocUpsert {β : Type} (d : List (ℤ × β)) (k : ℤ) (v : β) : List (ℤ × β) :=
  if d.any (fun kv => kv.1 == k) then
    d.map (fun kv => if kv.1 == k then (k, v) else kv)
  else d ++ [(k, v)]

/-- The innermost loop of `seatmap_index`: `for seat in (row.get("seats") or [])`.
A seat without an integer id makes `int(seat["id"])` raise (`Except.error`);
otherwise `idx[sid] = {...}` is performed. -/
def indexSeats (zn bn rn : Option String) (seats : List RawSeat)
    (idx : List (ℤ × SeatEntry)) : Except Unit (List (ℤ × SeatEntry)) :=
  match seats with
  | [] => .ok idx
  | seat :: rest =>
      match seat.id with
      | none => .error ()
      | some sid =>
          indexSeats zn bn rn rest
            (assocUpsert idx sid
              { seat_id := sid, display_name := seat.display_name, zone := zn,
                block := bn, row := rn, price := seat.price, currency := seat.currency })

/-- The `for row in (b.get("rows") or [])` loop of `seatmap_index`. -/
def indexRows (zn bn : Option String) (rows : List RawRow)
    (idx : List (ℤ × SeatEntry)) : Except Unit (List (ℤ × SeatEntry)) :=
  match rows with
  | [] => .ok idx
  | row :: rest =>
      match indexSeats zn bn row.name row.seats idx with
      | .error e => .error e
      | .ok idx2 => indexRows zn bn rest idx2

/-- The `for b in (z.get("blocks") or [])` loop of `seatmap_index`. -/
def indexBlocks (zn : Option String) (blocks : List RawBlock)
    (idx : List (ℤ × SeatEntry)) : Except Unit (List (ℤ × SeatEntry)) :=
  match blocks with
  | [] => .ok idx
  | b :: rest =>
      match indexRows zn b.name b.rows idx with
      | .error e => .error e
      | .ok idx2 => indexBlocks zn rest idx2

/-- The `for z in (layout.get("zones") or [])` loop of `seatmap_index`. -/
def indexZones (zones : List RawZone)
    (idx : List (ℤ × SeatEntry)) : Except Unit (List (ℤ × SeatEntry)) :=
  match zones with
  | [] => .ok idx
  | z :: rest =>
      match indexBlocks z.name z.blocks idx with
      | .error e => .error e
      | .ok idx2 => indexZones rest idx2

/-- `seatmap_index(seatmap_json)`: empty result list gives the empty index,
otherwise only `result[0]` is walked. -/
def seatmap_index (doc : SeatmapDoc) : Except Unit (List (ℤ × SeatEntry)) :=
  match doc.result with
  | [] => .ok []
  | layout :: _ => indexZones layout.zones []

/-- The zones of the first layout entry, or `[]` when the result list is empty. -/
def firstLayoutZones (doc : SeatmapDoc) : List RawZone :=
  match doc.result with
  | [] => []
  | layout :: _ => layout.zones

theorem indexSeats_error_iff (zn bn rn : Option String) (seats : List RawSeat) :
    ∀ idx, indexSeats zn bn rn seats idx = .error () ↔ ∃ s ∈ seats, s.id = none := by
  induction seats with
  | nil => intro idx; simp [indexSeats]
  | cons seat rest ih =>
      intro idx
      rcases h : seat.id with _ | sid
      · simp [indexSeats, h]
      · simp [indexSeats, h, ih]

theorem indexRows_error_iff (zn bn : Option String) (rows : List RawRow) :
    ∀ idx, indexRows zn bn rows idx = .error () ↔
      ∃ row ∈ rows, ∃ s ∈ row.seats, s.id = none := by
  induction rows with
  | nil => intro idx; simp [indexRows]
  | cons row rest ih =>
      intro idx
      rcases h : indexSeats zn bn row.name row.seats idx with e | idx2
      · cases e
        simp only [indexRows, h]
        constructor
        · intro _
          exact ⟨row, List.mem_cons_self row rest,
            (indexSeats_error_iff zn bn row.name row.seats idx).1 h⟩
        · intro _; trivial
      · simp only [indexRows, h, ih idx2]
        constructor
        · rintro ⟨r, hr, hs⟩
          exact ⟨r, List.mem_cons_of_mem _ hr, hs⟩
        · rintro ⟨r, hr, hs⟩
          rcases List.mem_cons.1 hr with rfl | hr2
          · exact absurd ((indexSeats_error_iff zn bn r.name r.seats idx).2 hs) (by simp [h])
          · exact ⟨r, hr2, hs⟩

theorem indexBlocks_error_iff (zn : Option String) (blocks : List RawBlock) :
    ∀ idx, indexBlocks zn blocks idx = .error () ↔
      ∃ b ∈ blocks, ∃ row ∈ b.rows, ∃ s ∈ row.seats, s.id = none := by
  induction blocks with
  | nil => intro idx; simp [indexBlocks]
  | cons b rest ih =>
      intro idx
      rcases h : indexRows zn b.name b.rows idx with e | idx2
      · cases e
        simp only [indexBlocks, h]
        constructor
        · intro _
          exact ⟨b, List.mem_cons_self b rest,
            (indexRows_error_iff zn b.name b.rows idx).1 h⟩
        · intro _; trivial
      · simp only [indexBlocks, h, ih idx2]
        constructor
        · rintro ⟨x, hx, hs⟩
          exact ⟨x, List.mem_cons_of_mem _ hx, hs⟩
        · rintro ⟨x, hx, hs⟩
          rcases List.mem_cons.1 hx with rfl | hx2
          · exact absurd ((indexRows_error_iff zn x.name x.rows idx).2 hs) (by simp [h])
          · exact ⟨x, hx2, hs⟩

theorem indexZones_error_iff (zones : List RawZone) :
    ∀ idx, indexZones zones idx = .error () ↔
      ∃ z ∈ zones, ∃ b ∈ z.blocks, ∃ row ∈ b.rows, ∃ s ∈ row.seats, s.id = none := by
  induction zones with
  | nil => intro idx; simp [indexZones]
  | cons z rest ih =>
      intro idx
      rcases h : indexBlocks z.name z.blocks idx with e | idx2
      · cases e
        simp only [indexZones, h]
        constructor
        · intro _
          exact ⟨z, List.mem_cons_self z rest,
            (indexBlocks_error_iff z.name z.blocks idx).1 h⟩
        · intro _; trivial
      · simp only [indexZones, h, ih idx2]
        constructor
        · rintro ⟨x, hx, hs⟩
          exact ⟨x, List.mem_cons_of_mem _ hx, hs⟩
        · rintro ⟨x, hx, hs⟩
          rcases List.mem_cons.1 hx with rfl | hx2
          · exact absurd ((indexBlocks_error_iff x.name x.blocks idx).2 hs) (by simp [h])
          · exact ⟨x, hx2, hs⟩

/-- C5 (amended): the indexer walks only the first layout entry of the result
list (later entries never change the output), an empty result list yields the
empty index, and the indexer fails — the `KeyError`/`ValueError` from
`int(seat["id"])` escapes — exactly when some seat of the first layout lacks
an integer identity; it does not skip such a seat. -/
theorem seatmap_index_contract (doc : SeatmapDoc) :
    (∀ layout rest, seatmap_index ⟨layout :: rest⟩ = seatmap_index ⟨[layout]⟩) ∧
    seatmap_index ⟨[]⟩ = .ok [] ∧
    (seatmap_index doc = .error () ↔
      ∃ z ∈ firstLayoutZones doc, ∃ b ∈ z.blocks, ∃ row ∈ b.rows,
        ∃ s ∈ row.seats, s.id = none) := by
  refine ⟨fun layout rest => rfl, rfl, ?_⟩
  rcases doc with ⟨_ | ⟨layout, rest⟩⟩
  · simp [seatmap_index, firstLayoutZones]
  · simpa [seatmap_index, firstLayoutZones] using indexZones_error_iff layout.zones []

/-- A seatmap document whose first layout holds one row with a seat lacking
an integer identity followed by a well-formed seat. -/
def missingIdDoc : SeatmapDoc :=
  SeatmapDoc.mk [SeatLayout.mk [RawZone.mk (some "Z") [RawBlock.mk (some "B")
    [RawRow.mk (some "R")
      [RawSeat.mk none none none none, RawSeat.mk (some 5) none none none]]]]]

/-- C5 counterexample: on `missingIdDoc` the indexer raises (the embedded
`int(seat["id"])` lookup fails) instead of skipping the faulty seat and
indexing seat 5 — so a seat lacking an integer identity is not "skipped
without failing", and the exception does escape `seatmap_index`. -/
theorem seatmap_index_missing_id_raises :
    seatmap_index missingIdDoc = .error () := rfl

/-- Concrete instance of `seatmap_index_contract`: the empty document yields
the empty index. -/
theorem seatmap_index_contract_witness :
    seatmap_index ⟨[]⟩ = .ok [] :=
  (seatmap_index_contract ⟨[]⟩).2.1

/-! ## Seat-state collector (`fetch_seat_states`) -/

/-- What one page of the seat-states endpoint does for the collector: the
HTTP GET raises out of `http_get` (`raise_for_status`), or `safe_json`
yields no usable document (`if not data: break`), or a usable document with
its record list (`data["data"]["result"] or []`, records already coerced to
`(seat_id, state)` pairs) and its `total` count (`... or 0`, coerced to an
integer). -/
inductive PageResp where
  | httpError : PageResp
  | parseFail : PageResp
  | ok (result : List (ℤ × ℤ)) (total : ℤ) : PageResp
deriving DecidableEq, Repr

/-- Outcome of `fetch_seat_states`: an exception propagated out of the
function, or the mapping it returned; `outOfFuel` marks that the modelled
`while True` loop was still running after the given number of iterations. -/
inductive FetchOutcome where
  | raised : FetchOutcome
  | done (states : List (ℤ × ℤ)) : FetchOutcome
  | outOfFuel : FetchOutcome
deriving DecidableEq, Repr

/-- The page size of the collector (`limit = 50`). -/
def pageLimit : ℕ := 50

/-- The `while True` loop of `fetch_seat_states`, one fuel per iteration:
fetch the page (an HTTP error raises right through, there is no try/except
in the function), a parse failure breaks with the states collected so far,
otherwise merge the records into the dict (`states[sid] = st`), then break
when `page * limit >= total or not result`, else continue with `page + 1`. -/
def fetchLoop (pages : ℕ → PageResp) : ℕ → ℕ → List (ℤ × ℤ) → FetchOutcome
  | 0, _, _ => .outOfFuel
  | fuel + 1, page, states =>
      match pages page with
      | .httpError => .raised
      | .parseFail => .done states
      | .ok result total =>
          let states2 := result.foldl (fun d kv => assocUpsert d kv.1 kv.2) states
          if ((page * pageLimit : ℕ) : ℤ) ≥ total ∨ result = [] then .done states2
          else fetchLoop pages fuel (page + 1) states2

/-- `fetch_seat_states`: run the pagination loop from page 1 with an empty
dict. -/
def fetch_seat_states (pages : ℕ → PageResp) (fuel : ℕ) : FetchOutcome :=
  fetchLoop pages fuel 1 []

/-- A page oracle whose first page is full and whose second page's HTTP GET
fails. -/
def pagesHttpCE : ℕ → PageResp :=
  fun p => if p = 1 then .ok [(10, 3)] 200 else .httpError

/-- C4 counterexample: with one good page (partial mapping `{10: 3}`
collected) followed by an HTTP failure, `fetch_seat_states` raises — the
exception from `http_get` propagates out of the collector instead of the
partial mapping being returned. -/
theorem fetch_seat_states_http_failure_raises :
    fetch_seat_states pagesHttpCE 5 = .raised := by decide

/-- C4 (amended): a page *parse* failure mid-pagination makes the collector
return the partial mapping accumulated so far (no error propagates); but
the collector can only raise because some page's HTTP *fetch* failed — the
`raise_for_status` exception passes through uncaught. -/
theorem fetch_seat_states_failure_containment (pages : ℕ → PageResp) :
    (∀ (fuel page : ℕ) (states : List (ℤ × ℤ)), pages page = .parseFail →
        fetchLoop pages (fuel + 1) page states = .done states) ∧
    (∀ (fuel page : ℕ) (states : List (ℤ × ℤ)),
        fetchLoop pages fuel page states = .raised →
        ∃ p, page ≤ p ∧ pages p = .httpError) := by
  constructor
  · intro fuel page states h
    simp [fetchLoop, h]
  · intro fuel
    induction fuel with
    | zero =>
        intro page states h
        simp [fetchLoop] at h
    | succ n ih =>
        intro page states h
        rcases hp : pages page with _ | _ | ⟨result, total⟩
        · exact ⟨page, le_refl page, hp⟩
        · simp [fetchLoop, hp] at h
        · simp only [fetchLoop, hp] at h
          split at h
          · exact absurd h (by simp)
          · obtain ⟨p, hpge, hpe⟩ := ih (page + 1) _ h
            exact ⟨p, by omega, hpe⟩

/-- A page oracle on which every page parse fails. -/
def pagesParseW : ℕ → PageResp := fun _ => .parseFail

/-- Concrete instance of `fetch_seat_states_failure_containment`: a parse
failure returns the partial mapping collected so far. -/
theorem fetch_seat_states_failure_containment_witness :
    fetchLoop pagesParseW 3 1 [(5, 4)] = .done [(5, 4)] :=
  (fetch_seat_states_failure_containment pagesParseW).1 2 1 [(5, 4)] rfl

/-- The loop's stop condition at one page: the fetch raises, or the parse
fails, or `page * limit >= total or not result` holds for that page. -/
def stopPage (pages : ℕ → PageResp) (p : ℕ) : Bool :=
  match pages p with
  | .httpError => true
  | .parseFail => true
  | .ok result total => decide (((p * pageLimit : ℕ) : ℤ) ≥ total) || decide (result = [])

/-- A page oracle that always reports one more record than `page * limit`
covers: every page is non-empty and `page * limit >= total` never holds. -/
def pagesAdversarial : ℕ → PageResp :=
  fun p => .ok [(0, 0)] (((p * pageLimit : ℕ) : ℤ) + 1)

/-- The pagination loop of `fetch_seat_states` never finishes on this page
oracle, whatever iteration bound it is given. -/
def fetchNeverStops (pages : ℕ → PageResp) : Prop :=
  ∀ fuel : ℕ, fetch_seat_states pages fuel = .outOfFuel

/-- C6 counterexample: on `pagesAdversarial` — a response stream in which
every page carries a record and reports `total = page*limit + 1` — the
collector's loop is still running after any number of iterations: the
pagination loop does not terminate for every sequence of page responses. -/
theorem fetch_seat_states_can_run_forever : fetchNeverStops pagesAdversarial := by
  have main : ∀ (fuel page : ℕ) (states : List (ℤ × ℤ)),
      fetchLoop pagesAdversarial fuel page states = .outOfFuel := by
    intro fuel
    induction fuel with
    | zero => intro page states; rfl
    | succ n ih =>
        intro page states
        have hcond : ¬ (((page * pageLimit : ℕ) : ℤ) ≥ ((page * pageLimit : ℕ) : ℤ) + 1 ∨
            ([((0 : ℤ), (0 : ℤ))] : List (ℤ × ℤ)) = []) := by
          push_neg
          exact ⟨by omega, by simp⟩
        rw [fetchLoop]
        show (if ((page * pageLimit : ℕ) : ℤ) ≥ ((page * pageLimit : ℕ) : ℤ) + 1 ∨
            ([((0 : ℤ), (0 : ℤ))] : List (ℤ × ℤ)) = [] then _ else _) = _
        rw [if_neg hcond]
        exact ih (page + 1) _
  intro fuel
  exact main fuel 1 []

/-- C6 (amended): if some page satisfies the stop condition — its fetch or
parse fails, or it reports `page * limit >= total`, or it returns zero
records — then, given at least as many loop iterations as the first such
page number, the collector leaves the loop, and its behaviour depends only
on the pages up to that first stop page (no page past it is fetched). -/
theorem fetch_seat_states_stops_at_first_stop_page (pages : ℕ → PageResp) (N : ℕ)
    (h1 : 1 ≤ N) (hstop : stopPage pages N = true)
    (hmin : ∀ p, 1 ≤ p → p < N → stopPage pages p = false) :
    ∀ fuel, N ≤ fuel →
      fetch_seat_states pages fuel ≠ .outOfFuel ∧
      (∀ pages2 : ℕ → PageResp, (∀ q, q ≤ N → pages2 q = pages q) →
        fetch_seat_states pages2 fuel = fetch_seat_states pages fuel) := by
  have main : ∀ (fuel page : ℕ) (states : List (ℤ × ℤ)), 1 ≤ page → page ≤ N →
      (∀ p, page ≤ p → p < N → stopPage pages p = false) →
      N + 1 - page ≤ fuel →
      fetchLoop pages fuel page states ≠ .outOfFuel ∧
      (∀ pages2 : ℕ → PageResp, (∀ q, q ≤ N → pages2 q = pages q) →
        fetchLoop pages2 fuel page states = fetchLoop pages fuel page states) := by
    intro fuel
    induction fuel with
    | zero =>
        intro page states hp1 hpN hminp hf
        omega
    | succ n ih =>
        intro page states hp1 hpN hminp hf
        by_cases hs : stopPage pages page = true
        · rcases hp : pages page with _ | _ | ⟨result, total⟩
          · constructor
            · simp only [fetchLoop, hp]
              exact fun h => FetchOutcome.noConfusion h
            · intro pages2 hag
              simp [fetchLoop, hag page hpN, hp]
          · constructor
            · simp only [fetchLoop, hp]
              exact fun h => FetchOutcome.noConfusion h
            · intro pages2 hag
              simp [fetchLoop, hag page hpN, hp]
          · have hcond : ((page * pageLimit : ℕ) : ℤ) ≥ total ∨ result = [] := by
              rw [stopPage, hp] at hs
              rcases Bool.or_eq_true_iff.1 hs with ha | hb
              · exact Or.inl (of_decide_eq_true ha)
              · exact Or.inr (of_decide_eq_true hb)
            constructor
            · simp only [fetchLoop, hp, if_pos hcond]
              exact fun h => FetchOutcome.noConfusion h
            · intro pages2 hag
              simp only [fetchLoop, hag page hpN, hp, if_pos hcond]
        · have hlt : page < N := by
            rcases Nat.lt_or_ge page N with h | h
            · exact h
            · have : page = N := le_antisymm hpN h
              rw [this, hstop] at hs
              exact absurd rfl hs
          rcases hp : pages page with _ | _ | ⟨result, total⟩
          · rw [stopPage, hp] at hs
            exact absurd rfl hs
          · rw [stopPage, hp] at hs
            exact absurd rfl hs
          · have hcond : ¬ (((page * pageLimit : ℕ) : ℤ) ≥ total ∨ result = []) := by
              rw [stopPage, hp] at hs
              intro hc
              apply hs
              rcases hc with ha | hb
              · exact Bool.or_eq_true_iff.2 (Or.inl (decide_eq_true ha))
              · exact Bool.or_eq_true_iff.2 (Or.inr (decide_eq_true hb))
            have ihres := ih (page + 1)
              (result.foldl (fun d kv => assocUpsert d kv.1 kv.2) states)
              (by omega) (by omega) (fun p hpa hpb => hminp p (by omega) hpb) (by omega)
            constructor
            · simp only [fetchLoop, hp, if_neg hcond]
              exact ihres.1
            · intro pages2 hag
              simp only [fetchLoop, hag page hpN, hp, if_neg hcond]
              exact ihres.2 pages2 hag
  intro fuel hfuel
  have := main fuel 1 [] (le_refl 1) h1 (fun p hpa hpb => hmin p hpa hpb) (by omega)
  exact ⟨this.1, this.2⟩

/-- A page oracle whose first page already covers its reported total. -/
def pagesStopW : ℕ → PageResp := fun _ => .ok [] 0

/-- Concrete instance of `fetch_seat_states_stops_at_first_stop_page`: a
first page reporting `total = 0` with no records stops the loop at once. -/
theorem fetch_seat_states_stops_witness :
    fetch_seat_states pagesStopW 1 ≠ FetchOutcome.outOfFuel :=
  (fetch_seat_states_stops_at_first_stop_page pagesStopW 1 (le_refl 1) rfl
    (fun p hpa hpb => absurd (Nat.lt_of_lt_of_le hpb hpa) (lt_irrefl p)) 1 (le_refl 1)).1

/-! ## Session model, session filter and per-event processing (`scrape`) -/

/-- `SessionInfo` of the program: identity, schedule display fields, the
upstream sold-out flag, and the seat summary attached later. -/
structure SessionInfo where
  id : ℤ
  week_day : String := ""
  day : ℤ := 0
  month : String := ""
  time : String := ""
  is_sold_out : Bool := false
  seat_summary : Option SeatSummary := none
deriving DecidableEq, Repr

/-- `ScoreInfo` of the program (the 5-bucket breakdown dict is carried as an
association list). -/
structure ScoreInfo where
  average : Option ℚ
  count : ℤ := 0
  replies : ℤ := 0
  breakdown : List (String × ℤ) := []
deriving DecidableEq, Repr

/-- `ShowInfo` of the program. -/
structure ShowInfo where
  title : String := ""
  url : String := ""
  event_id : ℤ := 0
  event_uuid : Option String := none
  sessions : List SessionInfo := []
  score : Option ScoreInfo := none
deriving DecidableEq, Repr

/-- The network fetches the per-show loop body of `scrape` can perform after
the session list is in hand: `fetch_score` for the extracted UUID, and the
seatmap + seat-states fetch pair done by `build_session_seat_summary` for
one remaining session. -/
inductive ApiCall where
  | scoreFetch (uuid : String) : ApiCall
  | seatSummaryFetch (session_id : ℤ) : ApiCall
deriving DecidableEq, Repr

/-- The body of the per-show loop of `scrape` after `fetch_sessions`
returned `rawSessions` (the oracles stand for the network: `scoreOracle`
for `fetch_score`, `summaryOracle` for `build_session_seat_summary`): drop
sold-out sessions, skip the show entirely when none remain (`continue`
before any further fetch), else fetch the score when a UUID was extracted,
attach a seat summary to every remaining session, and build the `ShowInfo`.
Returns the appended show (`none` when the show is skipped) together with
the list of fetches performed. -/
def processShow (title url : String) (event_id : ℤ) (event_uuid : Option String)
    (rawSessions : List SessionInfo)
    (scoreOracle : String → Option ScoreInfo)
    (summaryOracle : ℤ → Option SeatSummary) :
    Option ShowInfo × List ApiCall :=
  let sessions := rawSessions.filter (fun sess => !sess.is_sold_out)
  if sessions.isEmpty then (none, [])
  else
    let score := match event_uuid with
      | some u => scoreOracle u
      | none => none
    let scoreCalls : List ApiCall := match event_uuid with
      | some u => [ApiCall.scoreFetch u]
      | none => []
    let sessions2 := sessions.map (fun sess => { sess with seat_summary := summaryOracle sess.id })
    let seatCalls := sessions.map (fun sess => ApiCall.seatSummaryFetch sess.id)
    (some (ShowInfo.mk title url event_id event_uuid sessions2 score), scoreCalls ++ seatCalls)

/-- C7: the session filter drops exactly the sessions whose sold-out flag is
true — every session of the produced show has `is_sold_out = false`, and the
show's session list is the filtered raw list (each with its summary
attached); when the filtered list is empty the event is excluded entirely —
no show is produced and no score/seatmap/seat-state fetch is performed; and
when some session survives, the show is produced. -/
theorem processShow_filters_sold_out (title url : String) (event_id : ℤ)
    (event_uuid : Option String) (rawSessions : List SessionInfo)
    (scoreOracle : String → Option ScoreInfo) (summaryOracle : ℤ → Option SeatSummary) :
    (∀ sh : ShowInfo,
        (processShow title url event_id event_uuid rawSessions scoreOracle summaryOracle).1
          = some sh →
        (∀ sess ∈ sh.sessions, sess.is_sold_out = false) ∧
        sh.sessions = (rawSessions.filter (fun sess => !sess.is_sold_out)).map
          (fun sess => { sess with seat_summary := summaryOracle sess.id })) ∧
    (rawSessions.filter (fun sess => !sess.is_sold_out) = [] →
        processShow title url event_id event_uuid rawSessions scoreOracle summaryOracle
          = (none, [])) ∧
    (rawSessions.filter (fun sess => !sess.is_sold_out) ≠ [] →
        (processShow title url event_id event_uuid rawSessions scoreOracle summaryOracle).1
          ≠ none) := by
  by_cases hk : (rawSessions.filter (fun sess => !sess.is_sold_out)).isEmpty = true
  · refine ⟨?_, ?_, ?_⟩
    · intro sh hsh
      simp [processShow, hk] at hsh
    · intro _
      simp [processShow, hk]
    · intro hne
      exact absurd (List.isEmpty_iff.1 hk) hne
  · refine ⟨?_, ?_, ?_⟩
    · intro sh hsh
      simp only [processShow, hk, Bool.false_eq_true, if_false, if_neg] at hsh
      rw [Option.some_inj] at hsh
      subst hsh
      constructor
      · intro sess hsess
        obtain ⟨s0, hs0, rfl⟩ := List.mem_map.1 hsess
        have := (List.mem_filter.1 hs0).2
        rw [Bool.not_eq_true'] at this
        exact this
      · rfl
    · intro hempty
      exact absurd (by simp [hempty]) hk
    · intro hne
      simp [processShow, hk]

/-- A raw session list in which every session is flagged sold out. -/
def soldOutSessions : List SessionInfo :=
  [SessionInfo.mk 11 "Mon" 1 "Jan" "18:00" true none,
   SessionInfo.mk 12 "Tue" 2 "Jan" "20:00" true none]

/-- Concrete instance of `processShow_filters_sold_out`: a show whose
sessions are all sold out yields no show and performs no fetch. -/
theorem processShow_filters_sold_out_witness :
    processShow "t" "u" 20 (some "abc") soldOutSessions (fun _ => none) (fun _ => none)
      = (none, []) :=
  (processShow_filters_sold_out "t" "u" 20 (some "abc") soldOutSessions
    (fun _ => none) (fun _ => none)).2.1 (by decide)

/-! ## Show ranking (`show_bayes_score` and the sort in `main`) -/

/-- `show_bayes_score(show)`: `0.0` for a show without a score or without a
raw average (unrated shows go to the bottom), else the Bayesian rating of
the raw average and vote count under the default prior. -/
def show_bayes_score (sh : ShowInfo) : ℚ :=
  match sh.score with
  | none => 0
  | some sc =>
      match sc.average with
      | none => 0
      | some avg => (bayesian_rating (some avg) sc.count).getD 0

/-- The ranking step of `main`:
`shows.sort(key=lambda s: show_bayes_score(s), reverse=True)` — a stable
sort by descending Bayesian score (Python's sort is stable, and
`reverse=True` reverses the comparison, not the result, so equal-key
elements keep their original order). -/
def rankShows (shows : List ShowInfo) : List ShowInfo :=
  shows.mergeSort (fun a b => decide (show_bayes_score b ≤ show_bayes_score a))

/-- C3: the ranker outputs a permutation of its input sorted by rank score
in descending order; shows with exactly equal rank score keep their original
relative order (stability); and the rank score is `0` for a show with no
score or no raw average, else the shrunk score of the raw average and vote
count under the default prior. -/
theorem rankShows_sorted_stable (shows : List ShowInfo) :
    (rankShows shows).Perm shows ∧
    List.Pairwise (fun a b => show_bayes_score b ≤ show_bayes_score a) (rankShows shows) ∧
    (∀ q : ℚ, (rankShows shows).filter (fun sh => decide (show_bayes_score sh = q))
        = shows.filter (fun sh => decide (show_bayes_score sh = q))) ∧
    (∀ sh : ShowInfo, sh.score = none → show_bayes_score sh = 0) ∧
    (∀ (sh : ShowInfo) (sc : ScoreInfo), sh.score = some sc → sc.average = none →
        show_bayes_score sh = 0) ∧
    (∀ (sh : ShowInfo) (sc : ScoreInfo) (avg : ℚ), sh.score = some sc →
        sc.average = some avg →
        show_bayes_score sh = bayesianCore avg sc.count (7/2) 20) := by
  have htrans : ∀ a b c : ShowInfo,
      decide (show_bayes_score b ≤ show_bayes_score a) = true →
      decide (show_bayes_score c ≤ show_bayes_score b) = true →
      decide (show_bayes_score c ≤ show_bayes_score a) = true := by
    intro a b c hab hbc
    exact decide_eq_true (le_trans (of_decide_eq_true hbc) (of_decide_eq_true hab))
  have htotal : ∀ a b : ShowInfo,
      (decide (show_bayes_score b ≤ show_bayes_score a)
        || decide (show_bayes_score a ≤ show_bayes_score b)) = true := by
    intro a b
    rcases le_total (show_bayes_score b) (show_bayes_score a) with h | h
    · exact Bool.or_eq_true_iff.2 (Or.inl (decide_eq_true h))
    · exact Bool.or_eq_true_iff.2 (Or.inr (decide_eq_true h))
  refine ⟨List.mergeSort_perm shows _, ?_, ?_, ?_, ?_, ?_⟩
  · exact (List.sorted_mergeSort htrans htotal shows).imp (fun h => of_decide_eq_true h)
  · intro q
    have hsubl : (shows.filter (fun sh => decide (show_bayes_score sh = q))).Sublist shows :=
      List.filter_sublist shows
    have hpair : List.Pairwise (fun a b =>
        decide (show_bayes_score b ≤ show_bayes_score a) = true)
        (shows.filter (fun sh => decide (show_bayes_score sh = q))) := by
      apply List.pairwise_of_forall_mem_list
      intro a ha b hb
      have ha2 := of_decide_eq_true (List.mem_filter.1 ha).2
      have hb2 := of_decide_eq_true (List.mem_filter.1 hb).2
      rw [ha2, hb2]
      exact decide_eq_true (le_refl q)
    have hsub2 : (shows.filter (fun sh => decide (show_bayes_score sh = q))).Sublist
        (rankShows shows) :=
      List.sublist_mergeSort htrans htotal hpair hsubl
    have hsub3 := List.Sublist.filter (fun sh => decide (show_bayes_score sh = q)) hsub2
    have hff : (shows.filter (fun sh => decide (show_bayes_score sh = q))).filter
        (fun sh => decide (show_bayes_score sh = q))
        = shows.filter (fun sh => decide (show_bayes_score sh = q)) :=
      List.filter_eq_self.2 (fun a ha => (List.mem_filter.1 ha).2)
    rw [hff] at hsub3
    have hperm : ((rankShows shows).filter (fun sh => decide (show_bayes_score sh = q))).Perm
        (shows.filter (fun sh => decide (show_bayes_score sh = q))) :=
      (List.mergeSort_perm shows _).filter _
    exact (hsub3.eq_of_length hperm.length_eq.symm).symm
  · intro sh hsc
    simp [show_bayes_score, hsc]
  · intro sh sc hsc havg
    simp [show_bayes_score, hsc, havg]
  · intro sh sc avg hsc havg
    simp [show_bayes_score, hsc, havg, bayesian_rating]

/-- A show carrying a raw average of 3 from 2 votes. -/
def ratedShow : ShowInfo := ShowInfo.mk "s" "u" 1 none [] (some (ScoreInfo.mk (some 3) 2 0 []))

/-- Concrete instance of `rankShows_sorted_stable`: the rank score of
`ratedShow` is the shrunk score of average 3 with 2 votes. -/
theorem rankShows_sorted_stable_witness :
    show_bayes_score ratedShow = bayesianCore 3 2 (7/2) 20 :=
  (rankShows_sorted_stable []).2.2.2.2.2 ratedShow (ScoreInfo.mk (some 3) 2 0 []) 3 rfl rfl

/-! ## Digest chunker (`telegram_send_many`) -/

/-- The loop state of `telegram_send_many`: the chunks already sent, the
current buffer `buf`, and the running size counter `size`. -/
structure ChunkAcc where
  chunks : List (List String) := []
  buf : List String := []
  size : ℕ := 0
deriving DecidableEq, Repr

/-- One iteration of the `for line in lines` loop of `telegram_send_many`:
`add = len(line) + 1`; when `size + add > max_len and buf`, flush `buf` as a
chunk and start a new buffer with the line, else append the line to the
buffer and grow `size`. -/
def chunkStep (max_len : ℕ) (acc : ChunkAcc) (line : String) : ChunkAcc :=
  if acc.size + (line.length + 1) > max_len ∧ acc.buf ≠ [] then
    ChunkAcc.mk (acc.chunks ++ [acc.buf]) [line] (line.length + 1)
  else
    ChunkAcc.mk acc.chunks (acc.buf ++ [line]) (acc.size + (line.length + 1))

/-- The buffers `telegram_send_many` sends, in order: run the loop over the
digest's lines (`lines = text.splitlines()`), then flush the last buffer
when it is non-empty. -/
def chunkLines (lines : List String) (max_len : ℕ) : List (List String) :=
  let acc := lines.foldl (chunkStep max_len) {}
  if acc.buf ≠ [] then acc.chunks ++ [acc.buf] else acc.chunks

/-- Python's `"\n".join(buf)`. -/
def joinLines : List String → String
  | [] => ""
  | [l] => l
  | l :: rest => l ++ "\n" ++ joinLines rest

/-- The messages `telegram_send_many(text, max_len)` sends, given the
digest's line list. -/
def telegram_chunks (lines : List String) (max_len : ℕ := 3500) : List String :=
  (chunkLines lines max_len).map joinLines

/-- `len(line) + 1` summed over a buffer (the loop's `size` accounting). -/
def sumLen (b : List String) : ℕ := (b.map (fun l => l.length + 1)).sum

theorem sumLen_append (a b : List String) : sumLen (a ++ b) = sumLen a + sumLen b := by
  simp [sumLen]

theorem joinLines_length : ∀ b : List String, b ≠ [] → (joinLines b).length + 1 = sumLen b
  | [l], _ => by simp [joinLines, sumLen]
  | l :: r :: rest, _ => by
      have ih := joinLines_length (r :: rest) (by simp)
      have hlen : (joinLines (l :: r :: rest)).length
          = l.length + 1 + (joinLines (r :: rest)).length := by
        show (l ++ "\n" ++ joinLines (r :: rest)).length = _
        simp [String.length_append, show ("\n" : String).length = 1 from rfl]
      have hsum : sumLen (l :: r :: rest) = (l.length + 1) + sumLen (r :: rest) := by
        simp [sumLen]
      omega

theorem chunkFold_flatten (max_len : ℕ) : ∀ (lines : List String) (acc : ChunkAcc),
    (lines.foldl (chunkStep max_len) acc).chunks.flatten
        ++ (lines.foldl (chunkStep max_len) acc).buf
      = acc.chunks.flatten ++ acc.buf ++ lines := by
  intro lines
  induction lines with
  | nil => intro acc; simp
  | cons line rest ih =>
      intro acc
      rw [List.foldl_cons, ih]
      by_cases hc : acc.size + (line.length + 1) > max_len ∧ acc.buf ≠ []
      · simp [chunkStep, hc, List.flatten_append]
      · simp [chunkStep, hc]

theorem chunkLines_flatten (lines : List String) (max_len : ℕ) :
    (chunkLines lines max_len).flatten = lines := by
  have h := chunkFold_flatten max_len lines {}
  simp only [show ({} : ChunkAcc).chunks = [] from rfl, show ({} : ChunkAcc).buf = [] from rfl,
    List.flatten_nil, List.nil_append] at h
  unfold chunkLines
  by_cases hb : (lines.foldl (chunkStep max_len) {}).buf = []
  · rw [hb] at h
    simp only [hb]
    simpa using h
  · simp only [hb, ne_eq, not_false_iff, if_pos, List.flatten_append]
    simpa using h

theorem chunkFold_bound (max_len : ℕ) : ∀ (lines : List String) (acc : ChunkAcc),
    (∀ l ∈ lines, l.length + 1 ≤ max_len) →
    acc.size = sumLen acc.buf → acc.size ≤ max_len →
    (∀ c ∈ acc.chunks, c ≠ [] ∧ sumLen c ≤ max_len) →
    (lines.foldl (chunkStep max_len) acc).size
        = sumLen (lines.foldl (chunkStep max_len) acc).buf ∧
    (lines.foldl (chunkStep max_len) acc).size ≤ max_len ∧
    (∀ c ∈ (lines.foldl (chunkStep max_len) acc).chunks, c ≠ [] ∧ sumLen c ≤ max_len) := by
  intro lines
  induction lines with
  | nil =>
      intro acc _ hsz hle hch
      exact ⟨hsz, hle, hch⟩
  | cons line rest ih =>
      intro acc hlines hsz hle hch
      have hline : line.length + 1 ≤ max_len := hlines line (by simp)
      rw [List.foldl_cons]
      by_cases hc : acc.size + (line.length + 1) > max_len ∧ acc.buf ≠ []
      · refine ih (chunkStep max_len acc line) (fun l hl => hlines l (by simp [hl])) ?_ ?_ ?_
        · simp [chunkStep, hc, sumLen]
        · simp only [chunkStep, if_pos hc]
          exact hline
        · simp only [chunkStep, if_pos hc]
          intro c hcmem
          rcases List.mem_append.1 hcmem with hin | hnew
          · exact hch c hin
          · have : c = acc.buf := by simpa using hnew
            subst this
            exact ⟨hc.2, by rw [← hsz]; exact hle⟩
      · have hfit : acc.size + (line.length + 1) ≤ max_len := by
          by_cases hbuf : acc.buf = []
          · have : acc.size = 0 := by rw [hsz, hbuf]; rfl
            omega
          · rcases Nat.lt_or_ge max_len (acc.size + (line.length + 1)) with hgt | hle2
            · exact absurd ⟨hgt, hbuf⟩ hc
            · exact hle2
        refine ih (chunkStep max_len acc line) (fun l hl => hlines l (by simp [hl])) ?_ ?_ ?_
        · simp only [chunkStep, if_neg hc]
          rw [sumLen_append, ← hsz]
          simp [sumLen]
        · simp only [chunkStep, if_neg hc]
          exact hfit
        · simp only [chunkStep, if_neg hc]
          exact hch

/-- C9 (amended): the chunker splits the digest only on line boundaries —
the emitted buffers concatenate back to exactly the digest's lines, in
order — and, provided every line satisfies `len(line) + 1 <= max_len`,
every emitted message is no longer than `max_len`.  (Without that proviso a
single long line is emitted as its own oversized message, see the
counterexample.) -/
theorem telegram_chunks_line_bounded (lines : List String) (max_len : ℕ) :
    (chunkLines lines max_len).flatten = lines ∧
    ((∀ l ∈ lines, l.length + 1 ≤ max_len) →
      ∀ c ∈ telegram_chunks lines max_len, c.length ≤ max_len) := by
  refine ⟨chunkLines_flatten lines max_len, ?_⟩
  intro hlines c hc
  obtain ⟨b, hb, rfl⟩ := List.mem_map.1 hc
  obtain ⟨hsz, hle, hch⟩ := chunkFold_bound max_len lines {} hlines rfl (Nat.zero_le _)
    (by intro c hc2; simp at hc2)
  have hbprop : b ≠ [] ∧ sumLen b ≤ max_len := by
    unfold chunkLines at hb
    by_cases hbuf : (lines.foldl (chunkStep max_len) {}).buf = []
    · simp only [hbuf, ne_eq, not_true_eq_false, if_false] at hb
      exact hch b hb
    · simp only [hbuf, ne_eq, not_false_iff, if_pos] at hb
      rcases List.mem_append.1 hb with hin | hnew
      · exact hch b hin
      · have : b = (lines.foldl (chunkStep max_len) {}).buf := by simpa using hnew
        subst this
        exact ⟨hbuf, by rw [← hsz]; exact hle⟩
  have := joinLines_length b hbprop.1
  omega

/-- C9 counterexample: with threshold 3 (a positive threshold) the single
line "aaaa" of length 4 is emitted as one chunk of length 4 > 3: a line
longer than the threshold yields an oversized chunk, so not every emitted
chunk respects the threshold. -/
theorem telegram_chunks_oversized_line :
    telegram_chunks ["aaaa"] 3 = ["aaaa"] ∧ ("aaaa" : String).length > 3 := by
  constructor
  · rfl
  · decide

/-- Concrete instance of `telegram_chunks_line_bounded`: two short lines
under threshold 5 are sent as two messages of length at most 5. -/
theorem telegram_chunks_line_bounded_witness :
    ∀ c ∈ telegram_chunks ["ab", "cd"] 5, c.length ≤ 5 :=
  (telegram_chunks_line_bounded ["ab", "cd"] 5).2 (by decide)

end Fidibo
